import Mathlib

/-!
Verification of the move-quality analysis engine of the chess-deng
repository (`src/game_analyser.py`), shallowly embedded in Lean 4.

Real-valued evaluation arithmetic is embedded over `ℚ`; Python's `int()`
truncation is made explicit; the fallible calls into the chess library and
the engine process are modelled with `Except`, and the engine-process
lifecycle of `analyze_single_game` is tracked explicitly so that the
resource-release behaviour on each exit path is visible.
-/

namespace ChessDeng

/-- The function `classify(eval_drop)` from `game_analyser.py`: classify a move by its
evaluation drop in pawns, by a top-down chain of inclusive lower bounds. -/
def classify (eval_drop : ℚ) : String :=
  if eval_drop ≥ 30/100 then "brilliant"
  else if eval_drop ≥ 10/100 then "great"
  else if eval_drop ≥ -(5/100) then "good"
  else if eval_drop ≥ -(15/100) then "inaccuracy"
  else if eval_drop ≥ -(30/100) then "mistake"
  else "blunder"

/-- One row of the records DataFrame built by `analyze_single_game`. -/
structure PlyRecord where
  eval_before : ℚ
  eval_after : ℚ
  eval_drop : ℚ
  category : String
deriving Repr, DecidableEq

/-- Python `int()` on a real value: truncation toward zero. -/
def pyInt (q : ℚ) : Int :=
  if 0 ≤ q then ⌊q⌋ else ⌈q⌉

/-- The selection `df[df["eval_drop"] < 0]["eval_drop"]` made by
`compute_accuracy`: the strictly negative eval drops, in row order. -/
def negDrops (df : List PlyRecord) : List ℚ :=
  (df.map (·.eval_drop)).filter (· < 0)

/-- The value `avg_loss` in `compute_accuracy`: `.abs().mean()` of the negative
drops; the mean of an empty selection is NaN and the source replaces NaN
by 0 (`if pd.isna(avg_loss): avg_loss = 0`). -/
def avgLoss (df : List PlyRecord) : ℚ :=
  if (negDrops df).isEmpty then 0
  else ((negDrops df).map (|·|)).sum / (negDrops df).length

/-- The line `accuracy = max(0, 100 - (avg_loss * 15))` in `compute_accuracy`. -/
def accuracy (df : List PlyRecord) : ℚ :=
  max 0 (100 - avgLoss df * 15)

/-- The function `compute_accuracy(df)` from `game_analyser.py`:
`rating_equiv = int(accuracy * 20 + 200)`, returning the pair
`(accuracy, rating_equiv)`. -/
def compute_accuracy (df : List PlyRecord) : ℚ × Int :=
  (accuracy df, pyInt (accuracy df * 20 + 200))

/-! ### Model of the chess library and engine surface used by `analyze_single_game`

The board, the engine score type and the PGN move legality check live in
third-party libraries (`python-chess`, Stockfish) outside this repository;
they are modelled here following the spec's contracts (§4.1, §4.2, §6):
move application fails with `IllegalMoveError` on an illegal move, the
engine per-position call may fail, and engine mate scores are saturated at
10000 centipawns. -/

/-- A chess board, restricted to the two observables the analyser uses:
whose turn it is (`true` = White, as `chess.WHITE`) and the moves pushed so
far. Moves themselves are abstract identifiers. -/
structure Board where
  turn : Bool
  history : List Nat
deriving Repr, DecidableEq

/-- Model of `board.push(move)`: apply a move, flipping the side to move. -/
def Board.push (b : Board) (m : Nat) : Board :=
  ⟨!b.turn, b.history ++ [m]⟩

/-- An engine score for one position: either a centipawn value or a forced
mate in `n` plies (positive: the scored side mates; otherwise it is mated). -/
inductive Score where
  | cp (c : Int)
  | mate (n : Int)
deriving Repr, DecidableEq

/-- Negate a score, switching the side it is seen from. -/
def Score.neg : Score → Score
  | .cp c => .cp (-c)
  | .mate n => .mate (-n)

/-- Modelled from the spec (§4.2): `Score.score(mate_score=10000)` of the
chess library (not part of this repository) — a total centipawn value with
forced-mate results saturated at the finite constant ±10000. -/
def Score.value : Score → Int
  | .cp c => c
  | .mate n => if 0 < n then 10000 else -10000

/-- A point-of-view score as returned in `info["score"]`: a score relative
to `turn`, readable from either side via `pov`. -/
structure PovScore where
  relative : Score
  turn : Bool
deriving Repr, DecidableEq

/-- Model of `.pov(color)`: the score seen from `white`'s side (`true` = White). -/
def PovScore.pov (ps : PovScore) (white : Bool) : Score :=
  if ps.turn = white then ps.relative else ps.relative.neg

/-- The signed fractional pawn value the analyser derives from one engine
reply: `info["score"].pov(me).score(mate_score=10000) / 100.0`. -/
def povPawns (ps : PovScore) (meWhite : Bool) : ℚ :=
  ((ps.pov meWhite).value : ℚ) / 100

/-- Outcome of one `analyze_single_game` run, with the engine-process
lifecycle made explicit: `engineAlive` records whether the engine process
spawned at the top of the function is still running when control returns
to the caller. -/
structure RunOutcome where
  result : Except String (List PlyRecord)
  engineAlive : Bool
deriving Repr

/-- The flag `is_my_move` in the loop body: whether a ply with the given side to
move belongs to the tracked player,
`(side_to_move == chess.WHITE and me_white) or (side_to_move == chess.BLACK and not me_white)`. -/
def isMyMove (meWhite side : Bool) : Bool :=
  (side && meWhite) || (!side && !meWhite)

/-- The per-move loop of `analyze_single_game`: for each mainline move,
query the engine before the move, push the move, query the engine after it,
and append a record when the side to move was the tracked player.  An
illegal move or a failed engine call raises, which propagates out of the
loop (modelled in `Except`).  `legal` is the library's legality check
(spec §4.1); `engine` is `engine.analyse` (spec §4.2). -/
def analyzeLoop (engine : Board → Except String PovScore)
    (legal : Board → Nat → Bool) (meWhite : Bool) :
    List Nat → Board → List PlyRecord → Except String (List PlyRecord)
  | [], _, recs => .ok recs
  | m :: ms, b, recs =>
    match engine b with
    | .error e => .error e
    | .ok infoBefore =>
      let evalBefore := povPawns infoBefore meWhite
      if legal b m then
        let b' := b.push m
        match engine b' with
        | .error e => .error e
        | .ok infoAfter =>
          let evalAfter := povPawns infoAfter meWhite
          let recs' :=
            if isMyMove meWhite b.turn then
              recs ++ [⟨evalBefore, evalAfter, evalAfter - evalBefore,
                        classify (evalAfter - evalBefore)⟩]
            else recs
          analyzeLoop engine legal meWhite ms b' recs'
      else .error "IllegalMoveError"

/-- The function `analyze_single_game(pgn_str, me_white)`: spawn the engine, replay the
mainline, and return the records DataFrame.  The source calls
`engine.quit()` only after the loop finishes; there is no `try`/`finally`,
so an exception raised inside the loop propagates before `quit()` runs and
leaves the engine process alive — `engineAlive` captures that. -/
def analyze_single_game (engine : Board → Except String PovScore)
    (legal : Board → Nat → Bool) (moves : List Nat) (startTurn : Bool)
    (meWhite : Bool) : RunOutcome :=
  match analyzeLoop engine legal meWhite moves ⟨startTurn, []⟩ [] with
  | .ok recs => ⟨.ok recs, false⟩
  | .error e => ⟨.error e, true⟩

/-! ### Specification-side combinators for the replay -/

/-- The ordered `(position before the move, move)` pairs of a replay. -/
def boardsFrom (b : Board) : List Nat → List (Board × Nat)
  | [] => []
  | m :: ms => (b, m) :: boardsFrom (b.push m) ms

/-- The plies of the tracked player, in move order. -/
def myPlies (meWhite : Bool) (b : Board) (ms : List Nat) : List (Board × Nat) :=
  (boardsFrom b ms).filter (fun p => isMyMove meWhite p.1.turn)

/-- The record the analyser produces for one tracked ply, given a total
engine evaluation function. -/
def mkRecord (ev : Board → PovScore) (meWhite : Bool) (p : Board × Nat) :
    PlyRecord :=
  let eb := povPawns (ev p.1) meWhite
  let ea := povPawns (ev (p.1.push p.2)) meWhite
  ⟨eb, ea, ea - eb, classify (ea - eb)⟩

/-! ### Specification-side formulations of the aggregation -/

/-- Sum over all records of the magnitude of the loss, where a
non-negative delta contributes nothing. -/
def sumNegMagnitude (df : List PlyRecord) : ℚ :=
  (df.map (fun r => max 0 (-r.eval_drop))).sum

/-- Number of records with a strictly negative delta. -/
def numNegative (df : List PlyRecord) : Nat :=
  df.countP (fun r => r.eval_drop < 0)

/-- The spec's average loss (§4.5): the mean absolute value of the
strictly negative deltas, 0 when there are none. -/
def meanAbsNeg (df : List PlyRecord) : ℚ :=
  if numNegative df = 0 then 0 else sumNegMagnitude df / numNegative df

/-- The board reached after pushing a whole sequence of moves. -/
def applyAll (b : Board) (ms : List Nat) : Board :=
  ms.foldl Board.push b

/-! ### Lemmas about the aggregation -/

theorem negDrops_length (df : List PlyRecord) :
    (negDrops df).length = numNegative df := by
  simp only [negDrops, numNegative, List.countP_eq_length_filter, List.filter_map,
    List.length_map, Function.comp]
  rfl

theorem sum_abs_filter_neg (l : List ℚ) :
    ((l.filter (· < 0)).map (|·|)).sum = (l.map (fun q => max 0 (-q))).sum := by
  induction l with
  | nil => rfl
  | cons q l ih =>
    by_cases h : q < 0
    · have habs : |q| = -q := abs_of_neg h
      have hmax : max 0 (-q) = -q := max_eq_right (by linarith)
      simp [List.filter_cons, h, ih, habs, hmax]
    · have hmax : max 0 (-q) = 0 := max_eq_left (by linarith [not_lt.mp h])
      simp [List.filter_cons, h, ih, hmax]

theorem avgLoss_eq_meanAbsNeg (df : List PlyRecord) :
    avgLoss df = meanAbsNeg df := by
  unfold avgLoss meanAbsNeg
  have hlen := negDrops_length df
  have hsum : ((negDrops df).map (|·|)).sum = sumNegMagnitude df := by
    unfold negDrops sumNegMagnitude
    rw [sum_abs_filter_neg, List.map_map]
    rfl
  rw [hsum, hlen]
  by_cases h : numNegative df = 0
  · have he : negDrops df = [] := by
      rw [← List.length_eq_zero, hlen, h]
    simp [he, h]
  · have he : negDrops df ≠ [] := by
      intro hnil
      exact h (by rw [← hlen, hnil]; rfl)
    simp [List.isEmpty_eq_false.mpr he, h]

/-! ### Lemmas about the replay loop -/

theorem myPlies_cons (meWhite : Bool) (b : Board) (m : Nat) (ms : List Nat) :
    myPlies meWhite b (m :: ms) =
      if isMyMove meWhite b.turn then
        (b, m) :: myPlies meWhite (b.push m) ms
      else myPlies meWhite (b.push m) ms := by
  by_cases h : isMyMove meWhite b.turn
  · simp [myPlies, boardsFrom, List.filter_cons, h]
  · simp [myPlies, boardsFrom, List.filter_cons, h]

theorem analyzeLoop_ok_of_legal (ev : Board → PovScore)
    (legal : Board → Nat → Bool) (meWhite : Bool) :
    ∀ (ms : List Nat) (b : Board) (recs : List PlyRecord),
      (∀ p ∈ boardsFrom b ms, legal p.1 p.2 = true) →
      analyzeLoop (fun bd => .ok (ev bd)) legal meWhite ms b recs =
        .ok (recs ++ (myPlies meWhite b ms).map (mkRecord ev meWhite)) := by
  intro ms
  induction ms with
  | nil =>
    intro b recs _
    simp [analyzeLoop, myPlies, boardsFrom]
  | cons m ms ih =>
    intro b recs hleg
    have hm : legal b m = true := hleg (b, m) (by simp [boardsFrom])
    have hrest : ∀ p ∈ boardsFrom (b.push m) ms, legal p.1 p.2 = true := by
      intro p hp
      exact hleg p (by simp [boardsFrom, hp])
    rw [analyzeLoop, hm]
    simp only [if_true]
    rw [ih (b.push m) _ hrest, myPlies_cons]
    by_cases h : isMyMove meWhite b.turn
    · simp [h, mkRecord, povPawns, List.append_assoc]
    · simp [h]

theorem analyzeLoop_illegal (ev : Board → PovScore)
    (legal : Board → Nat → Bool) (meWhite : Bool) (m : Nat) (ms2 : List Nat) :
    ∀ (ms1 : List Nat) (b : Board) (recs : List PlyRecord),
      (∀ p ∈ boardsFrom b ms1, legal p.1 p.2 = true) →
      legal (applyAll b ms1) m = false →
      analyzeLoop (fun bd => .ok (ev bd)) legal meWhite (ms1 ++ m :: ms2) b recs =
        .error "IllegalMoveError" := by
  intro ms1
  induction ms1 with
  | nil =>
    intro b recs _ hbad
    rw [List.nil_append, analyzeLoop]
    have : legal b m = false := hbad
    rw [this]
    simp
  | cons m1 ms1 ih =>
    intro b recs hleg hbad
    have hm1 : legal b m1 = true := hleg (b, m1) (by simp [boardsFrom])
    have hrest : ∀ p ∈ boardsFrom (b.push m1) ms1, legal p.1 p.2 = true := by
      intro p hp
      exact hleg p (by simp [boardsFrom, hp])
    rw [List.cons_append, analyzeLoop, hm1]
    simp only [if_true]
    exact ih (b.push m1) _ hrest hbad

/-- Every record produced by a successful run of the loop that was not
already in the accumulator is built from two engine replies: an evaluation
of some position and of that position after one move, both converted to
the tracked player's point of view. -/
theorem analyzeLoop_ok_mem (engine : Board → Except String PovScore)
    (legal : Board → Nat → Bool) (meWhite : Bool) :
    ∀ (ms : List Nat) (b : Board) (recs0 recs : List PlyRecord),
      analyzeLoop engine legal meWhite ms b recs0 = .ok recs →
      ∀ r ∈ recs, r ∈ recs0 ∨
        ∃ b1 m ps1 ps2, engine b1 = .ok ps1 ∧ engine (b1.push m) = .ok ps2 ∧
          r = ⟨povPawns ps1 meWhite, povPawns ps2 meWhite,
               povPawns ps2 meWhite - povPawns ps1 meWhite,
               classify (povPawns ps2 meWhite - povPawns ps1 meWhite)⟩ := by
  intro ms
  induction ms with
  | nil =>
    intro b recs0 recs h r hr
    rw [analyzeLoop] at h
    cases h
    exact Or.inl hr
  | cons m ms ih =>
    intro b recs0 recs h r hr
    rw [analyzeLoop] at h
    cases he1 : engine b with
    | error e => rw [he1] at h; cases h
    | ok ps1 =>
      rw [he1] at h
      dsimp only at h
      by_cases hl : legal b m
      · rw [if_pos hl] at h
        cases he2 : engine (b.push m) with
        | error e => rw [he2] at h; cases h
        | ok ps2 =>
          rw [he2] at h
          rcases ih (b.push m) _ recs h r hr with hmem | hnew
          · by_cases hmy : isMyMove meWhite b.turn
            · rw [if_pos hmy] at hmem
              rcases List.mem_append.mp hmem with h0 | hr1
              · exact Or.inl h0
              · refine Or.inr ⟨b, m, ps1, ps2, he1, he2, ?_⟩
                simpa using hr1
            · rw [if_neg hmy] at hmem
              exact Or.inl hmem
          · exact Or.inr hnew
      · rw [if_neg hl] at h
        cases h

theorem compute_accuracy_of_perm (df1 df2 : List PlyRecord)
    (h : (negDrops df1).Perm (negDrops df2)) :
    compute_accuracy df1 = compute_accuracy df2 := by
  have hlen : (negDrops df1).length = (negDrops df2).length := h.length_eq
  have hsum : ((negDrops df1).map (|·|)).sum = ((negDrops df2).map (|·|)).sum :=
    (h.map _).sum_eq
  have hav : avgLoss df1 = avgLoss df2 := by
    unfold avgLoss
    rw [hsum, hlen]
    by_cases he : negDrops df1 = []
    · have he2 : negDrops df2 = [] := by
        rw [← List.length_eq_zero, ← hlen, he]
        rfl
      simp [he, he2]
    · have he2 : negDrops df2 ≠ [] := by
        intro hnil
        exact he (List.length_eq_zero.mp (by rw [hlen, hnil]; rfl))
      simp [List.isEmpty_eq_false.mpr he, List.isEmpty_eq_false.mpr he2]
  unfold compute_accuracy accuracy
  rw [hav]

theorem accuracy_nonneg (df : List PlyRecord) : 0 ≤ accuracy df :=
  le_max_left 0 _

theorem pyInt_of_nonneg {q : ℚ} (h : 0 ≤ q) : pyInt q = ⌊q⌋ :=
  if_pos h

/-! ### Characterization of the classifier -/

theorem classify_eq_brilliant_iff (d : ℚ) :
    classify d = "brilliant" ↔ 30/100 ≤ d := by
  unfold classify
  split_ifs with h1 h2 h3 h4 h5 <;> simp_all

theorem classify_eq_great_iff (d : ℚ) :
    classify d = "great" ↔ 10/100 ≤ d ∧ d < 30/100 := by
  unfold classify
  split_ifs with h1 h2 h3 h4 h5 <;> simp_all

theorem classify_eq_good_iff (d : ℚ) :
    classify d = "good" ↔ -(5/100) ≤ d ∧ d < 10/100 := by
  unfold classify
  split_ifs with h1 h2 h3 h4 h5 <;> simp_all
  intro h
  linarith

theorem classify_eq_inaccuracy_iff (d : ℚ) :
    classify d = "inaccuracy" ↔ -(15/100) ≤ d ∧ d < -(5/100) := by
  unfold classify
  split_ifs with h1 h2 h3 h4 h5 <;> simp_all <;> (intro h; linarith)

theorem classify_eq_mistake_iff (d : ℚ) :
    classify d = "mistake" ↔ -(30/100) ≤ d ∧ d < -(15/100) := by
  unfold classify
  split_ifs with h1 h2 h3 h4 h5 <;> simp_all <;> (intro h; linarith)

theorem classify_eq_blunder_iff (d : ℚ) :
    classify d = "blunder" ↔ d < -(30/100) := by
  unfold classify
  split_ifs with h1 h2 h3 h4 h5 <;> simp_all <;> try linarith

theorem classify_mem (d : ℚ) :
    classify d = "brilliant" ∨ classify d = "great" ∨ classify d = "good" ∨
      classify d = "inaccuracy" ∨ classify d = "mistake" ∨
      classify d = "blunder" := by
  unfold classify
  split_ifs <;> simp

theorem povPawns_mate (n : Int) (t w : Bool) :
    povPawns ⟨.mate n, t⟩ w = 100 ∨ povPawns ⟨.mate n, t⟩ w = -100 := by
  unfold povPawns PovScore.pov
  by_cases ht : t = w
  · by_cases hn : 0 < n
    · left; simp [ht, Score.value, hn]; norm_num
    · right; simp [ht, Score.value, hn]; norm_num
  · by_cases hn : 0 < -n
    · left; simp [ht, Score.neg, Score.value, hn]; norm_num
    · right; simp [ht, Score.neg, Score.value, hn]; norm_num

theorem povPawns_bound (ps : PovScore) (w : Bool) (M : ℚ)
    (hcp : ∀ c : Int, ps.relative = .cp c → |(c : ℚ)| ≤ M) :
    |povPawns ps w| ≤ max (M / 100) 100 := by
  obtain ⟨rel, t⟩ := ps
  rcases rel with c | n
  · have hc := hcp c rfl
    have habs : |povPawns ⟨.cp c, t⟩ w| = |(c : ℚ)| / 100 := by
      unfold povPawns PovScore.pov
      by_cases ht : t = w
      · simp [ht, Score.value, abs_div]
      · simp [ht, Score.neg, Score.value, abs_div]
    rw [habs]
    refine le_trans ?_ (le_max_left (M / 100) 100)
    exact div_le_div_of_nonneg_right hc (by norm_num) |>.trans_eq rfl
  · rcases povPawns_mate n t w with h | h <;> rw [h] <;>
      simp [abs_of_nonneg, abs_of_nonpos]

/-! ## Claims -/

/-- C1: for every evaluation delta `d`, `classify d` returns exactly one of
the six tiers, and the tiers partition the line by the inclusive lower
bounds of §4.3 evaluated top-down: `d ≥ 0.30` is brilliant,
`0.10 ≤ d < 0.30` great, `-0.05 ≤ d < 0.10` good, `-0.15 ≤ d < -0.05`
inaccuracy, `-0.30 ≤ d < -0.15` mistake, `d < -0.30` blunder. -/
theorem claim_C1_classify_partition (d : ℚ) :
    (classify d = "brilliant" ∨ classify d = "great" ∨ classify d = "good" ∨
      classify d = "inaccuracy" ∨ classify d = "mistake" ∨
      classify d = "blunder") ∧
    (classify d = "brilliant" ↔ 30/100 ≤ d) ∧
    (classify d = "great" ↔ 10/100 ≤ d ∧ d < 30/100) ∧
    (classify d = "good" ↔ -(5/100) ≤ d ∧ d < 10/100) ∧
    (classify d = "inaccuracy" ↔ -(15/100) ≤ d ∧ d < -(5/100)) ∧
    (classify d = "mistake" ↔ -(30/100) ≤ d ∧ d < -(15/100)) ∧
    (classify d = "blunder" ↔ d < -(30/100)) :=
  ⟨classify_mem d, classify_eq_brilliant_iff d, classify_eq_great_iff d,
   classify_eq_good_iff d, classify_eq_inaccuracy_iff d,
   classify_eq_mistake_iff d, classify_eq_blunder_iff d⟩

/-- C2: the aggregation computes the average loss as the mean absolute
value of the strictly negative deltas only (0 when there are none),
`accuracy = max(0, 100 - averageLoss * 15)`, and on a sequence with no
negative delta — in particular on the empty sequence — it returns
`(accuracy, ratingEstimate) = (100, 2200)` rather than raising. -/
theorem claim_C2_aggregate_mean_of_negatives (df : List PlyRecord) :
    (compute_accuracy df).1 = max 0 (100 - meanAbsNeg df * 15) ∧
    (numNegative df = 0 → compute_accuracy df = (100, 2200)) ∧
    compute_accuracy ([] : List PlyRecord) = (100, 2200) := by
  have hzero : ∀ dg : List PlyRecord, numNegative dg = 0 →
      compute_accuracy dg = (100, 2200) := by
    intro dg h
    have hav : avgLoss dg = 0 := by
      rw [avgLoss_eq_meanAbsNeg]
      unfold meanAbsNeg
      rw [if_pos h]
    unfold compute_accuracy accuracy
    rw [hav]
    norm_num [pyInt]
  refine ⟨?_, hzero df, hzero [] rfl⟩
  show accuracy df = _
  unfold accuracy
  rw [avgLoss_eq_meanAbsNeg]

theorem claim_C2_witness :
    compute_accuracy ([] : List PlyRecord) = (100, 2200) :=
  (claim_C2_aggregate_mean_of_negatives []).2.1 rfl

/-- C6 counterexample: on the single record with delta `-0.001` the code
returns ratingEstimate `2199` (truncation), while rounding
`accuracy × 20 + 200 = 2199.7` to the nearest integer gives `2200`. -/
theorem claim_C6_counterexample :
    (compute_accuracy [⟨0, -1/1000, -1/1000, "good"⟩]).2 = 2199 ∧
    round ((compute_accuracy [⟨0, -1/1000, -1/1000, "good"⟩]).1 * 20 + 200)
      = 2200 := by
  have hacc : (compute_accuracy [⟨0, -1/1000, -1/1000, "good"⟩]).1 = 19997/200 := by
    show accuracy _ = _
    unfold accuracy avgLoss negDrops
    norm_num [abs_of_nonneg, max_eq_right]
  constructor
  · show pyInt ((compute_accuracy [⟨0, -1/1000, -1/1000, "good"⟩]).1 * 20 + 200) = 2199
    rw [hacc, pyInt_of_nonneg (by norm_num),
      show (19997:ℚ)/200 * 20 + 200 = 21997/10 by norm_num]
    apply Int.floor_eq_iff.mpr
    constructor <;> norm_num
  · rw [hacc, show (19997:ℚ)/200 * 20 + 200 = 21997/10 by norm_num, round_eq]
    apply Int.floor_eq_iff.mpr
    constructor <;> norm_num

/-- C6 (amended): the ratingEstimate is `int(accuracy * 20 + 200)` —
Python truncation toward zero, which equals the floor here because
`accuracy * 20 + 200 ≥ 200` — not rounding to the nearest integer. -/
theorem claim_C6_rating_truncates (df : List PlyRecord) :
    (compute_accuracy df).2 = ⌊(compute_accuracy df).1 * 20 + 200⌋ := by
  show pyInt (accuracy df * 20 + 200) = _
  apply pyInt_of_nonneg
  have h := accuracy_nonneg df
  nlinarith

/-- C7: a record whose delta is non-negative can be inserted anywhere in
the input without changing the result of the aggregation. -/
theorem claim_C7_nonneg_delta_ignored (l1 l2 : List PlyRecord)
    (r : PlyRecord) (h : 0 ≤ r.eval_drop) :
    compute_accuracy (l1 ++ r :: l2) = compute_accuracy (l1 ++ l2) := by
  apply compute_accuracy_of_perm
  have hnd : negDrops (l1 ++ r :: l2) = negDrops (l1 ++ l2) := by
    unfold negDrops
    simp [List.filter_append, List.filter_cons, not_lt.mpr h]
  rw [hnd]

theorem claim_C7_witness :
    compute_accuracy [⟨0, 1, 1, "brilliant"⟩, ⟨1, 8/10, -2/10, "mistake"⟩] =
      compute_accuracy [⟨1, 8/10, -2/10, "mistake"⟩] :=
  claim_C7_nonneg_delta_ignored [] [⟨1, 8/10, -2/10, "mistake"⟩]
    ⟨0, 1, 1, "brilliant"⟩ (by norm_num)

/-- C8: with all other records fixed, growing the magnitude of one
negative delta can only lower (never raise) the accuracy. -/
theorem claim_C8_accuracy_antitone (l1 l2 : List PlyRecord)
    (r r' : PlyRecord) (hle : r'.eval_drop ≤ r.eval_drop)
    (hneg : r.eval_drop < 0) :
    (compute_accuracy (l1 ++ r' :: l2)).1 ≤
      (compute_accuracy (l1 ++ r :: l2)).1 := by
  have hneg' : r'.eval_drop < 0 := lt_of_le_of_lt hle hneg
  have hnd : negDrops (l1 ++ r :: l2) =
      negDrops l1 ++ r.eval_drop :: negDrops l2 := by
    unfold negDrops
    simp [List.filter_append, List.filter_cons, hneg]
  have hnd' : negDrops (l1 ++ r' :: l2) =
      negDrops l1 ++ r'.eval_drop :: negDrops l2 := by
    unfold negDrops
    simp [List.filter_append, List.filter_cons, hneg']
  have key : avgLoss (l1 ++ r :: l2) ≤ avgLoss (l1 ++ r' :: l2) := by
    unfold avgLoss
    rw [hnd, hnd']
    have hne : ¬((negDrops l1 ++ r.eval_drop :: negDrops l2).isEmpty = true) := by
      simp
    have hne' : ¬((negDrops l1 ++ r'.eval_drop :: negDrops l2).isEmpty = true) := by
      simp
    rw [if_neg hne, if_neg hne']
    have hlenpos : (0:ℚ) < (negDrops l1 ++ r.eval_drop :: negDrops l2).length := by
      have : 0 < (negDrops l1 ++ r.eval_drop :: negDrops l2).length := by
        simp
      exact_mod_cast this
    have hlen : (negDrops l1 ++ r'.eval_drop :: negDrops l2).length =
        (negDrops l1 ++ r.eval_drop :: negDrops l2).length := by
      simp
    rw [hlen]
    apply (div_le_div_iff_of_pos_right hlenpos).mpr
    simp only [List.map_append, List.map_cons, List.sum_append, List.sum_cons]
    have habs : |r.eval_drop| ≤ |r'.eval_drop| := by
      rw [abs_of_neg hneg, abs_of_neg hneg']
      linarith
    linarith
  show accuracy _ ≤ accuracy _
  unfold accuracy
  exact max_le_max (le_refl 0) (by linarith)

theorem claim_C8_witness :
    (compute_accuracy [⟨0, 0, -2/10, "mistake"⟩]).1 ≤
      (compute_accuracy [⟨0, 0, -1/10, "inaccuracy"⟩]).1 :=
  claim_C8_accuracy_antitone [] [] ⟨0, 0, -1/10, "inaccuracy"⟩
    ⟨0, 0, -2/10, "mistake"⟩ (by norm_num) (by norm_num)

/-- C10: the aggregation result depends only on the multiset of delta
values of the input — equal delta multisets (any order, any other field
values) give identical `(accuracy, ratingEstimate)` pairs. -/
theorem claim_C10_depends_only_on_delta_multiset (df1 df2 : List PlyRecord)
    (h : (df1.map (·.eval_drop)).Perm (df2.map (·.eval_drop))) :
    compute_accuracy df1 = compute_accuracy df2 :=
  compute_accuracy_of_perm df1 df2 (h.filter _)

theorem claim_C10_witness :
    compute_accuracy [⟨0, 0, -1/10, "inaccuracy"⟩, ⟨5, 6, 1, "brilliant"⟩] =
      compute_accuracy [⟨9, 10, 1, "great"⟩, ⟨1, 2, -1/10, "blunder"⟩] :=
  claim_C10_depends_only_on_delta_multiset _ _ (List.Perm.swap _ _ _)

/-- C3: on a game where every move is legal and the engine answers every
position, `analyze_single_game` returns exactly the tracked player's plies,
mapped in move order to their ply records — one record per tracked ply —
and the number of records equals the number of plies played by the tracked
player. -/
theorem claim_C3_one_record_per_tracked_ply (ev : Board → PovScore)
    (legal : Board → Nat → Bool) (meWhite startTurn : Bool) (ms : List Nat)
    (hleg : ∀ p ∈ boardsFrom ⟨startTurn, []⟩ ms, legal p.1 p.2 = true) :
    (analyze_single_game (fun b => .ok (ev b)) legal ms startTurn meWhite).result
      = .ok ((myPlies meWhite ⟨startTurn, []⟩ ms).map (mkRecord ev meWhite)) ∧
    ((myPlies meWhite ⟨startTurn, []⟩ ms).map (mkRecord ev meWhite)).length
      = (boardsFrom ⟨startTurn, []⟩ ms).countP
          (fun p => isMyMove meWhite p.1.turn) := by
  constructor
  · unfold analyze_single_game
    rw [analyzeLoop_ok_of_legal ev legal meWhite ms _ [] hleg]
    simp
  · rw [List.length_map]
    unfold myPlies
    rw [← List.countP_eq_length_filter]

theorem claim_C3_witness :
    (analyze_single_game (fun _ => Except.ok ⟨Score.cp 20, true⟩)
        (fun _ _ => true) [0, 1, 2] true true).result
      = Except.ok ((myPlies true ⟨true, []⟩ [0, 1, 2]).map
          (mkRecord (fun _ => ⟨Score.cp 20, true⟩) true)) :=
  (claim_C3_one_record_per_tracked_ply (fun _ => ⟨Score.cp 20, true⟩)
    (fun _ _ => true) true true [0, 1, 2] (fun _ _ => rfl)).1

/-- C4: if the first K−1 moves are legal and the Kth is illegal, the
analysis fails with the propagated error and returns no record sequence at
all — in particular not the K−1 records accumulated before the illegal
move. -/
theorem claim_C4_illegal_move_aborts (ev : Board → PovScore)
    (legal : Board → Nat → Bool) (meWhite startTurn : Bool)
    (ms1 : List Nat) (m : Nat) (ms2 : List Nat)
    (hleg : ∀ p ∈ boardsFrom ⟨startTurn, []⟩ ms1, legal p.1 p.2 = true)
    (hbad : legal (applyAll ⟨startTurn, []⟩ ms1) m = false) :
    (analyze_single_game (fun b => .ok (ev b)) legal (ms1 ++ m :: ms2)
        startTurn meWhite).result = .error "IllegalMoveError" ∧
    ∀ recs : List PlyRecord,
      (analyze_single_game (fun b => .ok (ev b)) legal (ms1 ++ m :: ms2)
          startTurn meWhite).result ≠ .ok recs := by
  have hres : (analyze_single_game (fun b => .ok (ev b)) legal
      (ms1 ++ m :: ms2) startTurn meWhite).result = .error "IllegalMoveError" := by
    unfold analyze_single_game
    rw [analyzeLoop_illegal ev legal meWhite m ms2 ms1 ⟨startTurn, []⟩ [] hleg hbad]
  refine ⟨hres, fun recs hc => ?_⟩
  rw [hres] at hc
  cases hc

theorem claim_C4_witness :
    (analyze_single_game (fun _ => Except.ok ⟨Score.cp 0, true⟩)
        (fun b _ => decide (b.history.length < 2)) ([0, 1] ++ 2 :: [3])
        true true).result = Except.error "IllegalMoveError" :=
  (claim_C4_illegal_move_aborts (fun _ => ⟨Score.cp 0, true⟩)
    (fun b _ => decide (b.history.length < 2)) true true [0, 1] 2 [3]
    (by decide) (by decide)).1

/-- C5: the spec requires the engine process to be terminated on every
exit path, but `analyze_single_game` calls `engine.quit()` only after the
replay loop completes with no exception; on the error path the exception
propagates first and the engine process is left alive.  Witnessed here on
a one-move game whose first move is illegal: the run exits with the
propagated error while the engine process is still running. -/
theorem claim_C5_engine_leaks_on_error_exit :
    (analyze_single_game (fun _ => Except.ok ⟨Score.cp 0, true⟩)
        (fun _ _ => false) [0] true true).result
      = Except.error "IllegalMoveError" ∧
    (analyze_single_game (fun _ => Except.ok ⟨Score.cp 0, true⟩)
        (fun _ _ => false) [0] true true).engineAlive = true := by
  exact ⟨rfl, rfl⟩

/-- C9: every evaluation field of every record of a successful analysis is
a finite signed pawn value: if the engine's centipawn replies are bounded
by `M`, then every `eval_before` and `eval_after` is bounded by
`max (M/100) 100` and every `eval_drop` is their difference; and a
forced-mate reply is saturated to exactly `±10000` centipawns, i.e. the
pawn value `±100`, never an infinity. -/
theorem claim_C9_evaluations_finite (engine : Board → Except String PovScore)
    (legal : Board → Nat → Bool) (meWhite startTurn : Bool) (ms : List Nat)
    (recs : List PlyRecord) (M : ℚ)
    (hok : (analyze_single_game engine legal ms startTurn meWhite).result
      = .ok recs)
    (hcp : ∀ (b : Board) (ps : PovScore) (c : Int),
      engine b = .ok ps → ps.relative = .cp c → |(c : ℚ)| ≤ M) :
    (∀ r ∈ recs,
      |r.eval_before| ≤ max (M / 100) 100 ∧
      |r.eval_after| ≤ max (M / 100) 100 ∧
      r.eval_drop = r.eval_after - r.eval_before) ∧
    ∀ (n : Int) (t w : Bool),
      povPawns ⟨.mate n, t⟩ w = 100 ∨ povPawns ⟨.mate n, t⟩ w = -100 := by
  refine ⟨?_, povPawns_mate⟩
  intro r hr
  unfold analyze_single_game at hok
  cases hrun : analyzeLoop engine legal meWhite ms ⟨startTurn, []⟩ [] with
  | error e =>
    rw [hrun] at hok
    cases hok
  | ok rs =>
    rw [hrun] at hok
    have hok' : Except.ok rs = Except.ok recs := hok
    have hrs : rs = recs := by injection hok'
    rcases analyzeLoop_ok_mem engine legal meWhite ms ⟨startTurn, []⟩ [] rs
        hrun r (by rw [hrs]; exact hr) with h0 | ⟨b1, m, ps1, ps2, he1, he2, hrec⟩
    · cases h0
    · subst hrec
      exact ⟨povPawns_bound ps1 meWhite M (fun c hc => hcp b1 ps1 c he1 hc),
             povPawns_bound ps2 meWhite M (fun c hc => hcp (b1.push m) ps2 c he2 hc),
             rfl⟩

theorem claim_C9_witness :
    (∀ r ∈ [(⟨0/100, 0/100, 0/100 - 0/100, classify (0/100 - 0/100)⟩ : PlyRecord)],
      |r.eval_before| ≤ max ((0 : ℚ) / 100) 100 ∧
      |r.eval_after| ≤ max ((0 : ℚ) / 100) 100 ∧
      r.eval_drop = r.eval_after - r.eval_before) ∧
    ∀ (n : Int) (t w : Bool),
      povPawns ⟨.mate n, t⟩ w = 100 ∨ povPawns ⟨.mate n, t⟩ w = -100 :=
  claim_C9_evaluations_finite (fun _ => Except.ok ⟨Score.cp 0, true⟩)
    (fun _ _ => true) true true [0]
    [⟨0/100, 0/100, 0/100 - 0/100, classify (0/100 - 0/100)⟩] 0
    (by
      unfold analyze_single_game
      rw [analyzeLoop_ok_of_legal _ _ _ _ _ _ (fun _ _ => rfl)]
      simp [myPlies, boardsFrom, isMyMove, mkRecord, povPawns, PovScore.pov,
        Score.value, Board.push])
    (by
      intro b ps c h1 h2
      cases h1
      cases h2
      norm_num)

end ChessDeng
